import Mathlib

/-!
# dot-github: repository identity from a remote URL, and the template directory

A shallow embedding of `main.go`.  Go strings are byte sequences, so a string is a
list of bytes here; `str` turns a Lean literal into its UTF-8 bytes.  Everything
outside the program text (environment variables, the git binary, the current user,
the file system) is gathered in `World`, and an effectful function returns its
outcome together with the world it leaves behind.  A Go panic is a value of `Panic`.
-/

namespace DotGithub

/-! ## Strings -/

abbrev Byte := UInt8

abbrev GoString := List Byte

/-- The UTF-8 bytes of a literal. -/
def str (s : String) : GoString := s.data.flatMap String.utf8EncodeChar

def slash : Byte := 47

def colon : Byte := 58

def dot : Byte := 46

/-- `strings.HasPrefix`: `len(s) >= len(p) && s[:len(p)] == p`. -/
def HasPrefix (s p : GoString) : Bool :=
  decide (p.length ≤ s.length) && (s.take p.length == p)

/-- `strings.HasSuffix`: `len(s) >= len(x) && s[len(s)-len(x):] == x`. -/
def HasSuffix (s x : GoString) : Bool :=
  decide (x.length ≤ s.length) && (s.drop (s.length - x.length) == x)

/-- `strings.TrimSuffix`: drops one trailing copy of `x` when there is one. -/
def TrimSuffix (s x : GoString) : GoString :=
  if HasSuffix s x then s.take (s.length - x.length) else s

/-- `strings.Index`: the least `i` with `s[i:i+len(sub)] == sub`; `none` is Go's `-1`. -/
def Index : GoString → GoString → Option Nat
  | [], sub => if HasPrefix [] sub then some 0 else none
  | c :: t, sub => if HasPrefix (c :: t) sub then some 0 else (Index t sub).map (· + 1)

/-- `strings.Contains`: `Index(s, sub) >= 0`. -/
def Contains (s sub : GoString) : Bool := (Index s sub).isSome

/-- The loop of `strings.genSplit`: at most `k` cuts, then the remainder. -/
def genSplitLoop (sep : GoString) : Nat → GoString → List GoString
  | 0, s => [s]
  | k + 1, s =>
    match Index s sep with
    | none => [s]
    | some m => s.take m :: genSplitLoop sep k (s.drop (m + sep.length))

/-- `strings.SplitN(s, sep, n)` for a one-byte separator and `n ≥ 0`, the only use
the program makes of it: `n == 0` gives nil, `n` is capped at `len(s)+1`, and the
loop makes `n-1` cuts. -/
def SplitN (s : GoString) (sep : Byte) (n : Nat) : List GoString :=
  if n = 0 then []
  else genSplitLoop [sep] (min n (s.length + 1) - 1) s

/-! ## Panics, URLs, repositories -/

deriving instance DecidableEq for Except

inductive Errno
  | ENOENT
  | EEXIST
  | ENOTDIR
  | EACCES
  deriving DecidableEq, Repr

/-- An `*os.PathError`. -/
structure PathError where
  Op : GoString
  Path : GoString
  Err : Errno
  deriving DecidableEq, Repr

/-- How the process dies: `panic(text)`, `panic(err.Error())` for a path error, or
the runtime's `index out of range [index] with length len`. -/
inductive Panic
  | message (text : GoString)
  | pathError (err : PathError)
  | indexOutOfRange (index len : Nat)
  deriving DecidableEq, Repr

/-- The fields of `url.URL` the program reads. -/
structure URL where
  Scheme : GoString
  Host : GoString
  Path : GoString
  deriving DecidableEq, Repr

structure Repository where
  User : GoString
  Name : GoString
  Path : GoString
  deriving DecidableEq, Repr

/-- What occupies a path: a regular file, or a directory with its permission bits
as they apply to this process (owner bits). -/
inductive Node
  | file
  | dir (perm : Nat)
  deriving DecidableEq, Repr

/-- The surroundings of the process.

* `environ`: the environment variables (`none` = unset);
* `lookPath`: `exec.LookPath`, `none` when it returns an error;
* `cmdOutput path args`: the standard output of running `path args`, `none` when
  `Output()` returns an error;
* `TrimSpace`, `urlString`: `strings.TrimSpace` and `(*url.URL).String`, left
  uninterpreted;
* `filepathAbs`: `filepath.Abs` in the working directory, with the error text;
* `currentUser`: `user.Current()`: the error text, or the user's `HomeDir`;
* `fs`: the file system, keyed by path; `privileged`: the process bypasses
  permission bits; `umask`: the file mode creation mask;
* `execLog`: the external commands run so far, oldest first. -/
structure World where
  environ : GoString → Option GoString
  lookPath : GoString → Option GoString
  cmdOutput : GoString → List GoString → Option GoString
  TrimSpace : GoString → GoString
  urlString : URL → GoString
  filepathAbs : GoString → Except GoString GoString
  currentUser : Except GoString GoString
  fs : GoString → Option Node
  privileged : Bool
  umask : Nat
  execLog : List (GoString × List GoString)

/-- `os.Getenv`: the empty string when the variable is unset. -/
def Getenv (w : World) (key : GoString) : GoString := (w.environ key).getD []

/-- `s[i]` on a slice, with the runtime's bounds check. -/
def index (xs : List GoString) (i : Nat) : Except Panic GoString :=
  match xs.get? i with
  | some x => .ok x
  | none => .error (.indexOutOfRange i xs.length)

/-! ## The git binary -/

def gitCmdPath (w : World) : Except Panic GoString :=
  let specified := Getenv w (str "DOT_GITHUB_GIT_CMD")
  if specified.length ≠ 0 then .ok specified
  else
    match w.lookPath (str "git") with
    | none =>
      .error (.message
        (str "'git' command not found.  Consider to specify $DOT_GITHUB_GIT_CMD manually."))
    | some path => .ok path

def GitRoot (w : World) : Except Panic GoString × World :=
  match gitCmdPath w with
  | .error p => (.error p, w)
  | .ok git =>
    let args := [str "rev-parse", str "--show-cdup"]
    let w1 := { w with execLog := w.execLog ++ [(git, args)] }
    match w.cmdOutput git args with
    | none => (.error (.message (str "Current directory is not in git repository")), w1)
    | some out =>
      match w.filepathAbs (w.TrimSpace out) with
      | .error e => (.error (.message e), w1)
      | .ok root => (.ok root, w1)

/-! ## Repository identity -/

def NewRepositoryFromHttpsURL (u : URL) (w : World) :
    Except Panic (Option Repository) × World :=
  if u.Path = [] then
    (.error (.message (str "Invalid https URL for GitHub: " ++ w.urlString u)), w)
  else
    let split := SplitN (u.Path.drop 1) slash 2
    match index split 0 with
    | .error p => (.error p, w)
    | .ok user =>
      match index split 1 with
      | .error p => (.error p, w)
      | .ok raw =>
        let name := TrimSuffix raw (str ".git")
        match GitRoot w with
        | (.error p, w1) => (.error p, w1)
        | (.ok root, w1) => (.ok (some ⟨user, name, root⟩), w1)

def NewRepositoryFromGitURL (u : URL) (w : World) :
    Except Panic (Option Repository) × World :=
  if !HasPrefix u.Path (str "git@") || !Contains u.Path (str ":") then
    (.error (.message (str "Invalid git@ URL for GitHub: " ++ w.urlString u)), w)
  else
    match index (SplitN u.Path colon 2) 1 with
    | .error p => (.error p, w)
    | .ok rest =>
      let split := SplitN rest slash 2
      match index split 0 with
      | .error p => (.error p, w)
      | .ok user =>
        match index split 1 with
        | .error p => (.error p, w)
        | .ok raw =>
          let name := TrimSuffix raw (str ".git")
          match GitRoot w with
          | (.error p, w1) => (.error p, w1)
          | (.ok root, w1) => (.ok (some ⟨user, name, root⟩), w1)

/-- The result `none` is Go's nil `*Repository`. -/
def NewRepositoryFromURL (u : URL) (w : World) :
    Except Panic (Option Repository) × World :=
  if u.Scheme = str "https" then NewRepositoryFromHttpsURL u w
  else if u.Scheme = [] then NewRepositoryFromGitURL u w
  else (.ok none, w)

/-! ## `path.Clean` and `path.Join` -/

/-- The backtracking loop of `path.Clean` on a `..` element, started after `out.w--`:
`for out.w > dotdot && out.index(out.w) != '/' { out.w-- }`; the result is the
final `out.w`. -/
def cleanBack (out : GoString) (dotdot : Nat) : Nat → Nat
  | 0 => 0
  | k + 1 =>
    if k + 1 > dotdot ∧ out.get? (k + 1) ≠ some slash then cleanBack out dotdot k
    else k + 1

/-- The main loop of `path.Clean`: `rest` is `path[r:]`, `out` is `buf[:w]`.  One
round of the loop per unit of fuel; every round consumes a byte of `rest`. -/
def cleanLoop (rooted : Bool) : Nat → GoString → GoString → Nat → GoString
  | 0, _, out, _ => out
  | _ + 1, [], out, _ => out
  | fuel + 1, c :: t, out, dotdot =>
    if c = slash then
      cleanLoop rooted fuel t out dotdot
    else if c = dot ∧ (t = [] ∨ t.head? = some slash) then
      cleanLoop rooted fuel t out dotdot
    else if c = dot ∧ t.head? = some dot ∧ (t.tail = [] ∨ t.tail.head? = some slash) then
      if out.length > dotdot then
        cleanLoop rooted fuel t.tail (out.take (cleanBack out dotdot (out.length - 1))) dotdot
      else if !rooted then
        let out1 := if out.length > 0 then out ++ [slash] else out
        let out2 := out1 ++ [dot, dot]
        cleanLoop rooted fuel t.tail out2 out2.length
      else
        cleanLoop rooted fuel t.tail out dotdot
    else
      let out1 :=
        if (rooted && out.length != 1) || (!rooted && out.length != 0) then out ++ [slash]
        else out
      cleanLoop rooted fuel ((c :: t).dropWhile (· != slash))
        (out1 ++ (c :: t).takeWhile (· != slash)) dotdot

/-- `path.Clean`. -/
def Clean (path : GoString) : GoString :=
  if path = [] then str "."
  else
    let rooted : Bool := path.head? == some slash
    let out :=
      if rooted then cleanLoop rooted path.length (path.drop 1) [slash] 1
      else cleanLoop rooted path.length path [] 0
    if out.length = 0 then str "." else out

/-- The buffer `path.Join` builds: the non-empty elements separated by `/`. -/
def joinBuf : GoString → List GoString → GoString
  | buf, [] => buf
  | buf, e :: es =>
    if buf.length > 0 ∨ e ≠ [] then
      joinBuf ((if buf.length > 0 then buf ++ [slash] else buf) ++ e) es
    else joinBuf buf es

/-- `path.Join`. -/
def Join (elem : List GoString) : GoString :=
  if (elem.map List.length).sum = 0 then []
  else Clean (joinBuf [] elem)

/-! ## The file system -/

structure FileInfo where
  IsDir : Bool
  deriving DecidableEq, Repr

def ModeDir : Nat := 2 ^ 31

/-- `os.IsNotExist` on a non-nil error. -/
def IsNotExist (e : PathError) : Bool := decide (e.Err = Errno.ENOENT)

/-- `for i > 0 && os.IsPathSeparator(path[i-1]) { i-- }`. -/
def skipSeparators (path : GoString) : Nat → Nat
  | 0 => 0
  | i + 1 => if path.get? i = some slash then skipSeparators path i else i + 1

/-- `for j > 0 && !os.IsPathSeparator(path[j-1]) { j-- }`. -/
def skipElement (path : GoString) : Nat → Nat
  | 0 => 0
  | j + 1 => if path.get? j ≠ some slash then skipElement path j else j + 1

/-- The parent `os.MkdirAll` creates first: with `i` past the trailing separators
and `j` before the last element, `path[:j-1]` when `j > 1`, and none otherwise. -/
def parentOf (path : GoString) : Option GoString :=
  let i := skipSeparators path path.length
  let j := skipElement path i
  if j > 1 then some (path.take (j - 1)) else none

/-- May the process look names up in a directory with these permission bits? -/
def searchable (w : World) (perm : Nat) : Bool := w.privileged || perm &&& 0o100 != 0

/-- May the process add entries to a directory with these permission bits? -/
def writable (w : World) (perm : Nat) : Bool := w.privileged || perm &&& 0o200 != 0

/-- The entry stored at a path itself. -/
def lookup (w : World) (path : GoString) : Except Errno Node :=
  match w.fs path with
  | none => .error .ENOENT
  | some n => .ok n

/-- Path resolution: every directory on the way has to exist and to be searchable.
A path without a parent lies in the root or the working directory, which are taken
to exist, to be searchable and to accept new entries.  One ancestor per unit of
fuel. -/
def resolve (w : World) : Nat → GoString → Except Errno Node
  | fuel, path =>
    match fuel, parentOf path with
    | fuel + 1, some parent =>
      match resolve w fuel parent with
      | .error e => .error e
      | .ok .file => .error .ENOTDIR
      | .ok (.dir perm) => if searchable w perm then lookup w path else .error .EACCES
    | _, _ => lookup w path

/-- `os.Stat`. -/
def Stat (w : World) (name : GoString) : Except PathError FileInfo :=
  match resolve w name.length name with
  | .error e => .error ⟨str "stat", name, e⟩
  | .ok .file => .ok ⟨false⟩
  | .ok (.dir _) => .ok ⟨true⟩

/-- `os.Lstat`; the model has no symbolic links, so it only differs from `Stat` in
the operation it reports. -/
def Lstat (w : World) (name : GoString) : Except PathError FileInfo :=
  match resolve w name.length name with
  | .error e => .error ⟨str "lstat", name, e⟩
  | .ok .file => .ok ⟨false⟩
  | .ok (.dir _) => .ok ⟨true⟩

/-- The world after a directory appears at `name`. -/
def withDir (w : World) (name : GoString) (perm : Nat) : World :=
  { w with fs := fun p => if p = name then some (.dir perm) else w.fs p }

/-- The permission bits of the directory that holds `name`; `none` stands for the
root or the working directory. -/
def holder (w : World) (name : GoString) : Except Errno (Option Nat) :=
  match parentOf name with
  | none => .ok none
  | some parent =>
    match resolve w parent.length parent with
    | .error e => .error e
    | .ok .file => .error .ENOTDIR
    | .ok (.dir perm) => .ok (some perm)

/-- `os.Mkdir`: the parent has to resolve to a searchable, writable directory and
`name` has to be free; the new directory gets the permission bits of `perm` that
the umask lets through.  A failed call changes nothing. -/
def Mkdir (w : World) (name : GoString) (perm : Nat) : Option PathError × World :=
  match holder w name with
  | .error e => (some ⟨str "mkdir", name, e⟩, w)
  | .ok bits =>
    if bits.any (fun pp => !searchable w pp) then (some ⟨str "mkdir", name, .EACCES⟩, w)
    else if (w.fs name).isSome then (some ⟨str "mkdir", name, .EEXIST⟩, w)
    else if bits.any (fun pp => !writable w pp) then (some ⟨str "mkdir", name, .EACCES⟩, w)
    else (none, withDir w name ((perm &&& 0o777) &&& (0o777 ^^^ (w.umask &&& 0o777))))

/-- The last step of `os.MkdirAll`: `Mkdir(path, perm)`, and when that fails,
success all the same if `Lstat` finds a directory at `path`. -/
def mkdirChecked (w : World) (path : GoString) (perm : Nat) : Option PathError × World :=
  match Mkdir w path perm with
  | (none, w2) => (none, w2)
  | (some err, w2) =>
    match Lstat w2 path with
    | .ok dir => if dir.IsDir then (none, w2) else (some err, w2)
    | .error _ => (some err, w2)

/-- The body of `os.MkdirAll`, with `recur` for its recursive call: the fast path
on `Stat`, then the parent (when there is one), then the last step. -/
def mkdirAllBody (recur : GoString → Option PathError × World) (w : World)
    (path : GoString) (perm : Nat) : Option PathError × World :=
  match Stat w path with
  | .ok dir =>
    if dir.IsDir then (none, w)
    else (some ⟨str "mkdir", path, .ENOTDIR⟩, w)
  | .error _ =>
    match parentOf path with
    | some parent =>
      match recur parent with
      | (some err, w1) => (some err, w1)
      | (none, w1) => mkdirChecked w1 path perm
    | none => mkdirChecked w path perm

/-- `os.MkdirAll` with one level of recursion per unit of fuel. -/
def MkdirAllAux : Nat → World → GoString → Nat → Option PathError × World
  | 0, w, path, perm => mkdirAllBody (fun _ => (none, w)) w path perm
  | fuel + 1, w, path, perm =>
    mkdirAllBody (fun parent => MkdirAllAux fuel w parent perm) w path perm

/-- `os.MkdirAll`: a parent is strictly shorter than its path, so `len(path)`
levels are enough. -/
def MkdirAll (w : World) (path : GoString) (perm : Nat) : Option PathError × World :=
  MkdirAllAux path.length w path perm

/-! ## The template directory -/

def baseDir (w : World) : Except Panic GoString :=
  let env := Getenv w (str "DOT_GITHUB_HOME")
  if env.length ≠ 0 then .ok env
  else
    match w.currentUser with
    | .error e => .error (.message e)
    | .ok homeDir => .ok homeDir

def TemplateDir (w : World) : Except Panic GoString × World :=
  match baseDir w with
  | .error p => (.error p, w)
  | .ok base =>
    let d := Join [base, str ".github"]
    match Stat w d with
    | .ok _ => (.ok d, w)
    | .error e =>
      if IsNotExist e then
        match MkdirAll w d (ModeDir ||| 0o644) with
        | (some err, w1) => (.error (.pathError err), w1)
        | (none, w1) => (.ok d, w1)
      else (.ok d, w)


/-! ## Sample worlds -/

/-- A machine with git on the PATH, a checkout at `/repo`, the template base set
to `/tmp/X`, and the directories `/tmp` and `/tmp/X`. -/
def demoWorld : World where
  environ := fun k => if k = str "DOT_GITHUB_HOME" then some (str "/tmp/X") else none
  lookPath := fun _ => some (str "/usr/bin/git")
  cmdOutput := fun _ _ => some (str "\n")
  TrimSpace := fun _ => []
  urlString := fun u => u.Scheme ++ str "://" ++ u.Host ++ u.Path
  filepathAbs := fun _ => .ok (str "/repo")
  currentUser := .ok (str "/home/u")
  fs := fun p =>
    if p = str "/tmp" then some (.dir 0o777)
    else if p = str "/tmp/X" then some (.dir 0o755)
    else none
  privileged := false
  umask := 0o022
  execLog := []

/-- The same machine with a regular file at `/tmp/X/.github`. -/
def fileWorld : World :=
  { demoWorld with
    fs := fun p => if p = str "/tmp/X/.github" then some .file else demoWorld.fs p }

/-- The same machine without the override, and with the home directory `/home/u`. -/
def homeWorld : World :=
  { demoWorld with
    environ := fun _ => none
    fs := fun p =>
      if p = str "/home" then some (.dir 0o755)
      else if p = str "/home/u" then some (.dir 0o755)
      else none }

/-- The same machine with a regular file at `/tmp/X`, in the way of the template
directory. -/
def blockedWorld : World :=
  { demoWorld with
    fs := fun p => if p = str "/tmp" then some (.dir 0o777) else
      if p = str "/tmp/X" then some .file else none }

/-! ## Facts about the string functions -/

theorem str_slash : str "/" = [slash] := rfl

theorem str_colon : str ":" = [colon] := rfl

theorem HasPrefix_iff (s p : GoString) : HasPrefix s p = true ↔ p <+: s := by
  unfold HasPrefix
  rw [Bool.and_eq_true, decide_eq_true_eq, beq_iff_eq]
  constructor
  · rintro ⟨_, h⟩
    exact h ▸ List.take_prefix _ _
  · intro h
    exact ⟨h.length_le, List.prefix_iff_eq_take.mp h |>.symm⟩

theorem HasSuffix_iff (s x : GoString) : HasSuffix s x = true ↔ x <:+ s := by
  unfold HasSuffix
  rw [Bool.and_eq_true, decide_eq_true_eq, beq_iff_eq]
  constructor
  · rintro ⟨_, h⟩
    exact h ▸ List.drop_suffix _ _
  · intro h
    exact ⟨h.length_le, List.suffix_iff_eq_drop.mp h |>.symm⟩

theorem HasPrefix_single (c : Byte) (t : GoString) (sep : Byte) :
    HasPrefix (c :: t) [sep] = (c == sep) := by
  simp [HasPrefix]

theorem Index_single_of_not_mem (s : GoString) (sep : Byte) (h : sep ∉ s) :
    Index s [sep] = none := by
  induction s with
  | nil => simp [Index, HasPrefix]
  | cons c t ih =>
    have hc : c ≠ sep := fun e => h (e ▸ List.mem_cons_self _ _)
    have ht : sep ∉ t := fun m => h (List.mem_cons_of_mem _ m)
    simp [Index, HasPrefix_single, hc, ih ht]

theorem Index_single_append (a b : GoString) (sep : Byte) (h : sep ∉ a) :
    Index (a ++ sep :: b) [sep] = some a.length := by
  induction a with
  | nil => simp [Index, HasPrefix_single]
  | cons c t ih =>
    have hc : c ≠ sep := fun e => h (e ▸ List.mem_cons_self _ _)
    have ht : sep ∉ t := fun m => h (List.mem_cons_of_mem _ m)
    simp [Index, HasPrefix_single, hc, ih ht]

theorem Contains_single_iff (s : GoString) (sep : Byte) :
    Contains s [sep] = true ↔ sep ∈ s := by
  unfold Contains
  constructor
  · intro h
    by_contra hm
    rw [Index_single_of_not_mem s sep hm] at h
    exact absurd h (by simp)
  · intro h
    obtain ⟨a, b, rfl, ha⟩ := List.eq_append_cons_of_mem h
    rw [Index_single_append a b sep ha]
    rfl

/-- Cutting at the first separator. -/
theorem SplitN_two_append (a b : GoString) (sep : Byte) (h : sep ∉ a) :
    SplitN (a ++ sep :: b) sep 2 = [a, b] := by
  have hk : min 2 ((a ++ sep :: b).length + 1) - 1 = 1 := by
    simp only [List.length_append, List.length_cons]
    omega
  unfold SplitN
  rw [if_neg (by decide), hk]
  simp [genSplitLoop, Index_single_append a b sep h]

/-- Nothing to cut: a single part. -/
theorem SplitN_two_of_not_mem (s : GoString) (sep : Byte) (h : sep ∉ s) :
    SplitN s sep 2 = [s] := by
  unfold SplitN
  rw [if_neg (by decide)]
  cases hk : min 2 (s.length + 1) - 1 with
  | zero => rfl
  | succ k => simp [genSplitLoop, Index_single_of_not_mem s sep h]

theorem TrimSuffix_append (s x : GoString) : TrimSuffix (s ++ x) x = s := by
  have h : HasSuffix (s ++ x) x = true := (HasSuffix_iff _ _).mpr (List.suffix_append s x)
  simp [TrimSuffix, h]

theorem TrimSuffix_of_not_suffix (s x : GoString) (h : ¬ x <:+ s) : TrimSuffix s x = s := by
  have h' : HasSuffix s x = false := by
    rw [← Bool.not_eq_true, HasSuffix_iff]
    exact h
  simp [TrimSuffix, h']


/-! ## Repository identity -/

theorem index_pair_zero (a b : GoString) : index [a, b] 0 = .ok a := rfl

theorem index_pair_one (a b : GoString) : index [a, b] 1 = .ok b := rfl

/-- What the https branch does with a path `c/owner/raw` (`c` any first byte). -/
theorem https_parse (u : URL) (w : World) (c : Byte) (owner raw : GoString)
    (hpath : u.Path = c :: (owner ++ slash :: raw)) (howner : slash ∉ owner) :
    NewRepositoryFromHttpsURL u w =
      match GitRoot w with
      | (.error p, w1) => (.error p, w1)
      | (.ok root, w1) => (.ok (some ⟨owner, TrimSuffix raw (str ".git"), root⟩), w1) := by
  unfold NewRepositoryFromHttpsURL
  rw [if_neg (by rw [hpath]; exact List.cons_ne_nil _ _), hpath]
  simp only [List.drop_succ_cons, List.drop_zero]
  rw [SplitN_two_append owner raw slash howner]
  simp only [index_pair_zero, index_pair_one]

/-- What the git@ branch does with a path `git@host:owner/raw`. -/
theorem git_parse (u : URL) (w : World) (host owner raw : GoString)
    (hpath : u.Path = str "git@" ++ host ++ colon :: (owner ++ slash :: raw))
    (hhost : colon ∉ host) (howner : slash ∉ owner) :
    NewRepositoryFromGitURL u w =
      match GitRoot w with
      | (.error p, w1) => (.error p, w1)
      | (.ok root, w1) => (.ok (some ⟨owner, TrimSuffix raw (str ".git"), root⟩), w1) := by
  have hpre : HasPrefix u.Path (str "git@") = true := by
    rw [HasPrefix_iff, hpath, List.append_assoc]
    exact List.prefix_append _ _
  have hcol : Contains u.Path (str ":") = true := by
    rw [str_colon, Contains_single_iff, hpath]
    simp
  have hnc : colon ∉ str "git@" ++ host := by
    intro hm
    rcases List.mem_append.mp hm with h | h
    · revert h; decide
    · exact hhost h
  unfold NewRepositoryFromGitURL
  rw [hpre, hcol]
  simp only [Bool.not_true, Bool.or_self, Bool.false_eq_true, if_false]
  rw [hpath, SplitN_two_append _ _ colon hnc, index_pair_one]
  simp only []
  rw [SplitN_two_append owner raw slash howner]
  simp only [index_pair_zero, index_pair_one]

theorem fst_of_GitRoot_ok (w : World) (root : GoString) (r : Repository)
    (hroot : (GitRoot w).1 = .ok root) :
    (match GitRoot w with
      | (.error p, w1) => ((.error p : Except Panic (Option Repository)), w1)
      | (.ok root, w1) => (.ok (some ⟨r.User, r.Name, root⟩), w1)).1
      = .ok (some ⟨r.User, r.Name, root⟩) := by
  rcases hg : GitRoot w with ⟨res, w1⟩
  rw [hg] at hroot
  simp only at hroot
  subst hroot
  rfl


/-- C1: for scheme "https", path "/OWNER/NAME.git" with no "/" in OWNER, and a
successful repository-root lookup, the identity has User = OWNER and Name = NAME;
for path "/OWNER/NAME" where NAME does not end in ".git", User = OWNER and
Name = NAME unchanged. The Path field is the looked-up root. -/
theorem https_identity (u : URL) (w : World) (owner name root : GoString)
    (hscheme : u.Scheme = str "https") (howner : slash ∉ owner)
    (hroot : (GitRoot w).1 = .ok root) :
    (u.Path = str "/" ++ owner ++ str "/" ++ name ++ str ".git" →
      (NewRepositoryFromURL u w).1 = .ok (some ⟨owner, name, root⟩)) ∧
    (u.Path = str "/" ++ owner ++ str "/" ++ name → ¬ str ".git" <:+ name →
      (NewRepositoryFromURL u w).1 = .ok (some ⟨owner, name, root⟩)) := by
  have hbranch : NewRepositoryFromURL u w = NewRepositoryFromHttpsURL u w := by
    unfold NewRepositoryFromURL
    rw [if_pos hscheme]
  constructor
  · intro hpath
    have hp : u.Path = slash :: (owner ++ slash :: (name ++ str ".git")) := by
      rw [hpath, str_slash]
      simp
    rw [hbranch, https_parse u w slash owner _ hp howner, TrimSuffix_append]
    exact fst_of_GitRoot_ok w root ⟨owner, name, root⟩ hroot
  · intro hpath hsuf
    have hp : u.Path = slash :: (owner ++ slash :: name) := by
      rw [hpath, str_slash]
      simp
    rw [hbranch, https_parse u w slash owner _ hp howner, TrimSuffix_of_not_suffix _ _ hsuf]
    exact fst_of_GitRoot_ok w root ⟨owner, name, root⟩ hroot

/-- The example of C1: `https://github.com/rhysd/dot-github.git` gives user `rhysd`
and name `dot-github`. -/
theorem https_identity_witness :
    (NewRepositoryFromURL ⟨str "https", str "github.com", str "/rhysd/dot-github.git"⟩
        demoWorld).1
      = .ok (some ⟨str "rhysd", str "dot-github", str "/repo"⟩) :=
  (https_identity ⟨str "https", str "github.com", str "/rhysd/dot-github.git"⟩ demoWorld
    (str "rhysd") (str "dot-github") (str "/repo") rfl (by decide) (by decide)).1 (by decide)

/-- C2: for an empty scheme and path "git@HOST:OWNER/NAME.git" with no ":" in HOST
and no "/" in OWNER, and a successful repository-root lookup, the identity has
User = OWNER and Name = NAME. -/
theorem git_identity (u : URL) (w : World) (host owner name root : GoString)
    (hscheme : u.Scheme = str "")
    (hpath : u.Path = str "git@" ++ host ++ str ":" ++ owner ++ str "/" ++ name ++ str ".git")
    (hhost : colon ∉ host) (howner : slash ∉ owner)
    (hroot : (GitRoot w).1 = .ok root) :
    (NewRepositoryFromURL u w).1 = .ok (some ⟨owner, name, root⟩) := by
  have hbranch : NewRepositoryFromURL u w = NewRepositoryFromGitURL u w := by
    unfold NewRepositoryFromURL
    have hs : u.Scheme = [] := hscheme
    rw [if_neg (by rw [hs]; decide), if_pos hs]
  have hp : u.Path = str "git@" ++ host ++ colon :: (owner ++ slash :: (name ++ str ".git")) := by
    rw [hpath, str_slash, str_colon]
    simp
  rw [hbranch, git_parse u w host owner _ hp hhost howner, TrimSuffix_append]
  exact fst_of_GitRoot_ok w root ⟨owner, name, root⟩ hroot

/-- The example of C2: `git@github.com:rhysd/dot-github.git` gives user `rhysd` and
name `dot-github`. -/
theorem git_identity_witness :
    (NewRepositoryFromURL ⟨str "", str "", str "git@github.com:rhysd/dot-github.git"⟩
        demoWorld).1
      = .ok (some ⟨str "rhysd", str "dot-github", str "/repo"⟩) :=
  git_identity ⟨str "", str "", str "git@github.com:rhysd/dot-github.git"⟩ demoWorld
    (str "github.com") (str "rhysd") (str "dot-github") (str "/repo") rfl (by decide)
    (by decide) (by decide) (by decide)

/-- C4: with scheme "https", an empty path, or a path whose part after the leading
"/" holds no further "/", makes NewRepositoryFromURL panic; no identity is returned
and the world is left as it was, the repository-root lookup not having run. -/
theorem https_rejected (u : URL) (w : World) (hscheme : u.Scheme = str "https")
    (hpath : u.Path = [] ∨ ∃ rest, u.Path = slash :: rest ∧ slash ∉ rest) :
    ∃ p, NewRepositoryFromURL u w = (.error p, w) := by
  unfold NewRepositoryFromURL
  rw [if_pos hscheme]
  unfold NewRepositoryFromHttpsURL
  rcases hpath with h | ⟨rest, h, hrest⟩
  · exact ⟨_, by rw [if_pos h]⟩
  · refine ⟨.indexOutOfRange 1 1, ?_⟩
    rw [if_neg (by rw [h]; exact List.cons_ne_nil _ _), h]
    simp only [List.drop_succ_cons, List.drop_zero]
    rw [SplitN_two_of_not_mem rest slash hrest]
    rfl

/-- The paths "/owner" and "" of an https URL are rejected. -/
theorem https_rejected_witness :
    (∃ p, NewRepositoryFromURL ⟨str "https", str "github.com", str "/owner"⟩ demoWorld
        = (.error p, demoWorld)) ∧
    (∃ p, NewRepositoryFromURL ⟨str "https", str "github.com", str ""⟩ demoWorld
        = (.error p, demoWorld)) :=
  ⟨https_rejected ⟨str "https", str "github.com", str "/owner"⟩ demoWorld rfl
      (Or.inr ⟨str "owner", by decide, by decide⟩),
   https_rejected ⟨str "https", str "github.com", str ""⟩ demoWorld rfl (Or.inl rfl)⟩

/-- C5: with an empty scheme, a path that does not start with "git@" or holds no ":"
makes NewRepositoryFromURL panic with the message "Invalid git@ URL for GitHub: "
followed by the URL; no identity is returned and the world is left as it was. -/
theorem git_rejected (u : URL) (w : World) (hscheme : u.Scheme = str "")
    (hpath : ¬ str "git@" <+: u.Path ∨ colon ∉ u.Path) :
    NewRepositoryFromURL u w
      = (.error (.message (str "Invalid git@ URL for GitHub: " ++ w.urlString u)), w) := by
  have hs : u.Scheme = [] := hscheme
  unfold NewRepositoryFromURL
  rw [if_neg (by rw [hs]; decide), if_pos hs]
  unfold NewRepositoryFromGitURL
  have hcond : (!HasPrefix u.Path (str "git@") || !Contains u.Path (str ":")) = true := by
    rcases hpath with h | h
    · have : HasPrefix u.Path (str "git@") = false := by
        rw [← Bool.not_eq_true, HasPrefix_iff]
        exact h
      simp [this]
    · have : Contains u.Path (str ":") = false := by
        rw [← Bool.not_eq_true, str_colon, Contains_single_iff]
        exact h
      simp [this]
  rw [if_pos hcond]

/-- The inputs "github.com:rhysd/dot-github.git" (no "git@") and "git@github.com"
(no ":") are rejected with the message. -/
theorem git_rejected_witness :
    NewRepositoryFromURL ⟨str "", str "", str "github.com:rhysd/dot-github.git"⟩ demoWorld
      = (.error (.message (str "Invalid git@ URL for GitHub: " ++
          str "://github.com:rhysd/dot-github.git")), demoWorld) ∧
    NewRepositoryFromURL ⟨str "", str "", str "git@github.com"⟩ demoWorld
      = (.error (.message (str "Invalid git@ URL for GitHub: " ++
          str "://git@github.com")), demoWorld) :=
  ⟨git_rejected ⟨str "", str "", str "github.com:rhysd/dot-github.git"⟩ demoWorld rfl
      (Or.inl (by decide)),
   git_rejected ⟨str "", str "", str "git@github.com"⟩ demoWorld rfl (Or.inr (by decide))⟩

/-- C6: a scheme that is neither "https" nor empty makes NewRepositoryFromURL return
nil without a panic, whatever the path, and leaves the world as it was: no command
is run, so the repository-root lookup does not take place. -/
theorem other_scheme_nil (u : URL) (w : World) (hhttps : u.Scheme ≠ str "https")
    (hempty : u.Scheme ≠ str "") :
    NewRepositoryFromURL u w = (.ok none, w) := by
  have hne : u.Scheme ≠ [] := hempty
  unfold NewRepositoryFromURL
  rw [if_neg hhttps, if_neg hne]

/-- The URL `ssh://git@github.com/rhysd/dot-github.git` yields nil and runs nothing. -/
theorem other_scheme_nil_witness :
    NewRepositoryFromURL ⟨str "ssh", str "github.com", str "/rhysd/dot-github.git"⟩ demoWorld
        = (.ok none, demoWorld) ∧
      demoWorld.execLog = [] :=
  ⟨other_scheme_nil ⟨str "ssh", str "github.com", str "/rhysd/dot-github.git"⟩ demoWorld
      (by decide) (by decide), rfl⟩

/-- C10: with an empty scheme, a path that starts with "git@" and holds a ":" (both
checked preconditions hold) but has no "/" after its first ":" makes
NewRepositoryFromGitURL panic on `split[1]` with index out of range [1] with length
1; no identity is returned. -/
theorem git_no_slash_panics (u : URL) (w : World) (before rest : GoString)
    (hscheme : u.Scheme = str "") (hstart : str "git@" <+: u.Path)
    (hpath : u.Path = before ++ str ":" ++ rest) (hbefore : colon ∉ before)
    (hrest : slash ∉ rest) :
    HasPrefix u.Path (str "git@") = true ∧ Contains u.Path (str ":") = true ∧
      NewRepositoryFromGitURL u w = (.error (.indexOutOfRange 1 1), w) ∧
      NewRepositoryFromURL u w = (.error (.indexOutOfRange 1 1), w) := by
  have hs : u.Scheme = [] := hscheme
  have hp : u.Path = before ++ colon :: rest := by
    rw [hpath, str_colon]
    simp
  have hpre : HasPrefix u.Path (str "git@") = true := (HasPrefix_iff _ _).mpr hstart
  have hcol : Contains u.Path (str ":") = true := by
    rw [str_colon, Contains_single_iff, hp]
    simp
  have hgit : NewRepositoryFromGitURL u w = (.error (.indexOutOfRange 1 1), w) := by
    unfold NewRepositoryFromGitURL
    rw [hpre, hcol]
    simp only [Bool.not_true, Bool.or_self, Bool.false_eq_true, if_false]
    rw [hp, SplitN_two_append _ _ colon hbefore, index_pair_one]
    simp only []
    rw [SplitN_two_of_not_mem rest slash hrest]
    rfl
  refine ⟨hpre, hcol, hgit, ?_⟩
  unfold NewRepositoryFromURL
  rw [if_neg (by rw [hs]; decide), if_pos hs, hgit]

/-- The input "git@github.com:rhysd" passes both checks and then panics. -/
theorem git_no_slash_panics_witness :
    NewRepositoryFromGitURL ⟨str "", str "", str "git@github.com:rhysd"⟩ demoWorld
      = (.error (.indexOutOfRange 1 1), demoWorld) :=
  (git_no_slash_panics ⟨str "", str "", str "git@github.com:rhysd"⟩ demoWorld
    (str "git@github.com") (str "rhysd") rfl (by decide) (by decide) (by decide)
    (by decide)).2.2.1

/-! ## The name and the ".git" suffix -/

/-- The second part of a two-way split is a tail of the string. -/
theorem suffix_of_SplitN_one (s raw : GoString) (sep : Byte)
    (h : index (SplitN s sep 2) 1 = .ok raw) : raw <:+ s := by
  unfold SplitN at h
  rw [if_neg (by decide)] at h
  cases hk : min 2 (s.length + 1) - 1 with
  | zero =>
    rw [hk] at h
    exact absurd h (by simp [genSplitLoop, index])
  | succ k =>
    rw [hk] at h
    cases hi : Index s [sep] with
    | none => exact absurd h (by simp [genSplitLoop, hi, index])
    | some m =>
      cases k with
      | zero =>
        simp only [genSplitLoop, hi, index, List.get?_cons_succ, List.get?_cons_zero,
          Except.ok.injEq] at h
        exact h ▸ List.drop_suffix _ _
      | succ j => omega

/-- Whenever an identity comes back, its name is a tail of the path with one
trailing ".git" taken off. -/
theorem name_from_path (u : URL) (w : World) (r : Repository)
    (h : (NewRepositoryFromURL u w).1 = .ok (some r)) :
    ∃ raw, raw <:+ u.Path ∧ r.Name = TrimSuffix raw (str ".git") := by
  unfold NewRepositoryFromURL at h
  split at h
  · unfold NewRepositoryFromHttpsURL at h
    split at h
    · exact absurd h (by simp)
    · simp only at h
      split at h
      · exact absurd h (by simp)
      · split at h
        · exact absurd h (by simp)
        · rename_i raw hraw
          split at h
          · exact absurd h (by simp)
          · simp only [Except.ok.injEq, Option.some.injEq] at h
            refine ⟨raw, ?_, by rw [← h]⟩
            exact (suffix_of_SplitN_one _ _ _ hraw).trans (List.drop_suffix 1 u.Path)
  · split at h
    · unfold NewRepositoryFromGitURL at h
      split at h
      · exact absurd h (by simp)
      · split at h
        · exact absurd h (by simp)
        · rename_i rest hrest
          simp only at h
          split at h
          · exact absurd h (by simp)
          · split at h
            · exact absurd h (by simp)
            · rename_i raw hraw
              split at h
              · exact absurd h (by simp)
              · simp only [Except.ok.injEq, Option.some.injEq] at h
                refine ⟨raw, ?_, by rw [← h]⟩
                exact (suffix_of_SplitN_one _ _ _ hraw).trans
                  (suffix_of_SplitN_one _ _ _ hrest)
    · exact absurd h (by simp)

/-- The counterexample to C3: for `https://github.com/o/n.git.git` an identity comes
back whose name, `n.git`, still ends with ".git". -/
theorem name_keeps_suffix_counterexample :
    (NewRepositoryFromURL ⟨str "https", str "github.com", str "/o/n.git.git"⟩ demoWorld).1
        = .ok (some ⟨str "o", str "n.git", str "/repo"⟩) ∧
      str ".git" <:+ str "n.git" :=
  ⟨by decide, ⟨str "n", by decide⟩⟩

/-- C3, amended: whenever NewRepositoryFromURL returns an identity for a URL whose
path does not end with ".git.git", the name does not end with ".git" (one trailing
".git" is taken off, not more). -/
theorem name_without_suffix (u : URL) (w : World) (r : Repository)
    (h : (NewRepositoryFromURL u w).1 = .ok (some r))
    (hpath : ¬ str ".git.git" <:+ u.Path) :
    ¬ str ".git" <:+ r.Name := by
  obtain ⟨raw, hraw, hname⟩ := name_from_path u w r h
  intro hsuf
  by_cases hs : str ".git" <:+ raw
  · obtain ⟨t, ht⟩ := hs
    rw [← ht, TrimSuffix_append] at hname
    obtain ⟨t2, ht2⟩ := hsuf
    apply hpath
    have hgg : str ".git.git" = str ".git" ++ str ".git" := by decide
    have : str ".git.git" <:+ raw := by
      rw [← ht, ← hname, ← ht2, hgg, List.append_assoc]
      exact List.suffix_append _ _
    exact this.trans hraw
  · rw [TrimSuffix_of_not_suffix _ _ hs] at hname
    exact hs (hname ▸ hsuf)

/-- For `https://github.com/rhysd/dot-github.git` an identity comes back, and its
name, `dot-github`, has no ".git" at its end. -/
theorem name_without_suffix_witness :
    (NewRepositoryFromURL ⟨str "https", str "github.com", str "/rhysd/dot-github.git"⟩
        demoWorld).1 = .ok (some ⟨str "rhysd", str "dot-github", str "/repo"⟩) ∧
      ¬ str ".git" <:+ str "dot-github" :=
  ⟨by decide,
    name_without_suffix ⟨str "https", str "github.com", str "/rhysd/dot-github.git"⟩
      demoWorld ⟨str "rhysd", str "dot-github", str "/repo"⟩ (by decide)
      (by rw [← HasSuffix_iff]; decide)⟩

/-! ## Facts about the file system -/

theorem skipSeparators_le (path : GoString) (n : Nat) : skipSeparators path n ≤ n := by
  induction n with
  | zero => simp [skipSeparators]
  | succ k ih =>
    unfold skipSeparators
    split
    · omega
    · omega

theorem skipElement_le (path : GoString) (n : Nat) : skipElement path n ≤ n := by
  induction n with
  | zero => simp [skipElement]
  | succ k ih =>
    unfold skipElement
    split
    · omega
    · omega

/-- A parent is strictly shorter than its path. -/
theorem parentOf_length (path parent : GoString) (h : parentOf path = some parent) :
    parent.length < path.length := by
  unfold parentOf at h
  simp only at h
  split at h
  · rename_i hj
    have h1 := skipSeparators_le path path.length
    have h2 := skipElement_le path (skipSeparators path path.length)
    simp only [Option.some.injEq] at h
    rw [← h, List.length_take]
    omega
  · exact absurd h (by simp)

theorem resolve_eq (w : World) (fuel : Nat) (path : GoString) :
    resolve w fuel path =
      match fuel, parentOf path with
      | fuel + 1, some parent =>
        match resolve w fuel parent with
        | .error e => .error e
        | .ok .file => .error .ENOTDIR
        | .ok (.dir perm) => if searchable w perm then lookup w path else .error .EACCES
      | _, _ => lookup w path := by
  conv_lhs => unfold resolve

/-- Any fuel from `len(path)` on gives the same resolution. -/
theorem resolve_fuel (w : World) (f1 : Nat) :
    ∀ (f2 : Nat) (path : GoString), path.length ≤ f1 → path.length ≤ f2 →
      resolve w f1 path = resolve w f2 path := by
  induction f1 with
  | zero =>
    intro f2 path h1 _
    have hnil : path = [] := List.length_eq_zero.mp (Nat.le_zero.mp h1)
    subst hnil
    rw [resolve_eq w 0, resolve_eq w f2]
    have hp : parentOf ([] : GoString) = none := rfl
    rw [hp]
    cases f2 <;> rfl
  | succ k ih =>
    intro f2 path h1 h2
    rw [resolve_eq w (k + 1), resolve_eq w f2]
    cases hp : parentOf path with
    | none => cases f2 <;> rfl
    | some parent =>
      have hlt := parentOf_length path parent hp
      cases f2 with
      | zero => omega
      | succ j =>
        simp only
        rw [ih j parent (by omega) (by omega)]

/-- Resolution with the fuel `Stat` uses, unfolded once. -/
theorem resolve_self (w : World) (path : GoString) :
    resolve w path.length path =
      match parentOf path with
      | none => lookup w path
      | some parent =>
        match resolve w parent.length parent with
        | .error e => .error e
        | .ok .file => .error .ENOTDIR
        | .ok (.dir perm) => if searchable w perm then lookup w path else .error .EACCES := by
  rw [resolve_eq]
  cases hp : parentOf path with
  | none => cases path.length <;> rfl
  | some parent =>
    have hlt := parentOf_length path parent hp
    cases hl : path.length with
    | zero => omega
    | succ j =>
      simp only
      rw [resolve_fuel w j parent.length parent (by omega) (Nat.le_refl _)]

/-- A new directory does not change how shorter paths resolve. -/
theorem resolve_withDir (w : World) (name : GoString) (perm : Nat) (fuel : Nat) :
    ∀ path : GoString, path.length < name.length →
      resolve (withDir w name perm) fuel path = resolve w fuel path := by
  induction fuel with
  | zero =>
    intro path hlt
    have hne : path ≠ name := fun e => by rw [e] at hlt; omega
    rw [resolve_eq, resolve_eq]
    cases parentOf path <;> simp [lookup, withDir, hne]
  | succ k ih =>
    intro path hlt
    have hne : path ≠ name := fun e => by rw [e] at hlt; omega
    have hlook : lookup (withDir w name perm) path = lookup w path := by
      simp [lookup, withDir, hne]
    rw [resolve_eq, resolve_eq]
    cases hp : parentOf path with
    | none => exact hlook
    | some parent =>
      have hpl := parentOf_length path parent hp
      simp only
      rw [ih parent (by omega), hlook]
      rfl

theorem Stat_dir_iff (w : World) (name : GoString) :
    Stat w name = .ok ⟨true⟩ ↔ ∃ perm, resolve w name.length name = .ok (.dir perm) := by
  unfold Stat
  constructor
  · intro h
    split at h
    · exact absurd h (by simp)
    · exact absurd h (by simp)
    · rename_i perm hr
      exact ⟨perm, hr⟩
  · rintro ⟨perm, hr⟩
    rw [hr]

theorem Lstat_dir_iff (w : World) (name : GoString) :
    Lstat w name = .ok ⟨true⟩ ↔ ∃ perm, resolve w name.length name = .ok (.dir perm) := by
  unfold Lstat
  constructor
  · intro h
    split at h
    · exact absurd h (by simp)
    · exact absurd h (by simp)
    · rename_i perm hr
      exact ⟨perm, hr⟩
  · rintro ⟨perm, hr⟩
    rw [hr]

/-- A failed `Mkdir` leaves the world alone. -/
theorem Mkdir_failed (w w2 : World) (name : GoString) (perm : Nat) (err : PathError)
    (h : Mkdir w name perm = (some err, w2)) : w2 = w := by
  unfold Mkdir at h
  split at h
  · exact (Prod.mk.inj h).2.symm
  · split at h
    · exact (Prod.mk.inj h).2.symm
    · split at h
      · exact (Prod.mk.inj h).2.symm
      · split at h
        · exact (Prod.mk.inj h).2.symm
        · exact absurd (Prod.mk.inj h).1 (by simp)

/-- After a successful `Mkdir` the name is a directory. -/
theorem Mkdir_dir (w w2 : World) (name : GoString) (perm : Nat)
    (h : Mkdir w name perm = (none, w2)) : Stat w2 name = .ok ⟨true⟩ := by
  unfold Mkdir at h
  split at h
  · exact absurd (Prod.mk.inj h).1 (by simp)
  · rename_i bits hbits
    split at h
    · exact absurd (Prod.mk.inj h).1 (by simp)
    · rename_i hsearch
      split at h
      · exact absurd (Prod.mk.inj h).1 (by simp)
      · split at h
        · exact absurd (Prod.mk.inj h).1 (by simp)
        · have hw := (Prod.mk.inj h).2
          rw [Stat_dir_iff, ← hw, resolve_self]
          have hlook : ∀ m, lookup (withDir w name m) name = .ok (.dir m) := by
            intro m
            simp [lookup, withDir]
          unfold holder at hbits
          cases hp : parentOf name with
          | none => exact ⟨_, hlook _⟩
          | some parent =>
            have hpl := parentOf_length name parent hp
            rw [hp] at hbits
            simp only at hbits ⊢
            rw [resolve_withDir w name _ parent.length parent hpl]
            split at hbits
            · exact absurd hbits (by simp)
            · exact absurd hbits (by simp)
            · rename_i pp hres
              simp only [Except.ok.injEq] at hbits
              rw [← hbits] at hsearch
              simp only [Option.any_some, Bool.not_eq_true', Bool.not_eq_true] at hsearch
              have hs : searchable (withDir w name
                  ((perm &&& 0o777) &&& (0o777 ^^^ (w.umask &&& 0o777)))) pp = true := by
                have : searchable w pp = true := by
                  cases hh : searchable w pp
                  · rw [hh] at hsearch; simp at hsearch
                  · rfl
                exact this
              rw [if_pos hs]
              exact ⟨_, hlook _⟩

theorem mkdirChecked_dir (w w' : World) (path : GoString) (perm : Nat)
    (h : mkdirChecked w path perm = (none, w')) : Stat w' path = .ok ⟨true⟩ := by
  unfold mkdirChecked at h
  split at h
  · rename_i w2 hm
    rw [← (Prod.mk.inj h).2]
    exact Mkdir_dir w w2 path perm hm
  · rename_i err w2 hm
    split at h
    · rename_i dir hl
      split at h
      · rename_i hd
        rw [← (Prod.mk.inj h).2, Stat_dir_iff, ← Lstat_dir_iff, hl]
        cases dir
        simp only at hd
        rw [hd]
      · exact absurd (Prod.mk.inj h).1 (by simp)
    · exact absurd (Prod.mk.inj h).1 (by simp)

theorem mkdirAllBody_dir (recur : GoString → Option PathError × World) (w w' : World)
    (path : GoString) (perm : Nat) (h : mkdirAllBody recur w path perm = (none, w')) :
    Stat w' path = .ok ⟨true⟩ := by
  unfold mkdirAllBody at h
  split at h
  · rename_i dir hdir
    split at h
    · rename_i hd
      have hw := (Prod.mk.inj h).2
      rw [← hw, hdir]
      cases dir
      simp only at hd
      rw [hd]
    · exact absurd (Prod.mk.inj h).1 (by simp)
  · split at h
    · split at h
      · exact absurd (Prod.mk.inj h).1 (by simp)
      · exact mkdirChecked_dir _ _ _ _ h
    · exact mkdirChecked_dir _ _ _ _ h

/-- When `MkdirAll` reports success, the path is a directory. -/
theorem MkdirAllAux_dir (fuel : Nat) (w w' : World) (path : GoString) (perm : Nat)
    (h : MkdirAllAux fuel w path perm = (none, w')) : Stat w' path = .ok ⟨true⟩ := by
  cases fuel with
  | zero => exact mkdirAllBody_dir _ w w' path perm h
  | succ k => exact mkdirAllBody_dir _ w w' path perm h

/-- `Mkdir` touches the file system only. -/
theorem Mkdir_frame (w w2 : World) (name : GoString) (perm : Nat) (r : Option PathError)
    (h : Mkdir w name perm = (r, w2)) :
    w2.environ = w.environ ∧ w2.currentUser = w.currentUser := by
  unfold Mkdir at h
  split at h
  · rw [← (Prod.mk.inj h).2]; exact ⟨rfl, rfl⟩
  · split at h
    · rw [← (Prod.mk.inj h).2]; exact ⟨rfl, rfl⟩
    · split at h
      · rw [← (Prod.mk.inj h).2]; exact ⟨rfl, rfl⟩
      · split at h
        · rw [← (Prod.mk.inj h).2]; exact ⟨rfl, rfl⟩
        · rw [← (Prod.mk.inj h).2]; exact ⟨rfl, rfl⟩

theorem mkdirChecked_frame (w w2 : World) (name : GoString) (perm : Nat)
    (r : Option PathError) (h : mkdirChecked w name perm = (r, w2)) :
    w2.environ = w.environ ∧ w2.currentUser = w.currentUser := by
  unfold mkdirChecked at h
  split at h
  · rename_i w3 hm
    rw [← (Prod.mk.inj h).2]
    exact Mkdir_frame w w3 name perm _ hm
  · rename_i err w3 hm
    have hf := Mkdir_frame w w3 name perm _ hm
    split at h
    · split at h <;> (rw [← (Prod.mk.inj h).2]; exact hf)
    · rw [← (Prod.mk.inj h).2]; exact hf

theorem mkdirAllBody_frame (recur : GoString → Option PathError × World) (w w2 : World)
    (path : GoString) (perm : Nat) (r : Option PathError)
    (hrec : ∀ parent r1 w1, recur parent = (r1, w1) →
      w1.environ = w.environ ∧ w1.currentUser = w.currentUser)
    (h : mkdirAllBody recur w path perm = (r, w2)) :
    w2.environ = w.environ ∧ w2.currentUser = w.currentUser := by
  unfold mkdirAllBody at h
  split at h
  · split at h <;> (rw [← (Prod.mk.inj h).2]; exact ⟨rfl, rfl⟩)
  · split at h
    · rename_i parent _
      split at h
      · rename_i err w1 hr
        rw [← (Prod.mk.inj h).2]
        exact hrec _ _ _ hr
      · rename_i w1 hr
        have h1 := hrec _ _ _ hr
        have h2 := mkdirChecked_frame _ _ _ _ _ h
        exact ⟨h2.1.trans h1.1, h2.2.trans h1.2⟩
    · exact mkdirChecked_frame _ _ _ _ _ h

/-- `MkdirAll` touches the file system only: the environment and the current user
stay as they were. -/
theorem MkdirAllAux_frame (fuel : Nat) :
    ∀ (w w2 : World) (path : GoString) (perm : Nat) (r : Option PathError),
      MkdirAllAux fuel w path perm = (r, w2) →
      w2.environ = w.environ ∧ w2.currentUser = w.currentUser := by
  induction fuel with
  | zero =>
    intro w w2 path perm r h
    refine mkdirAllBody_frame _ w w2 path perm r ?_ h
    intro parent r1 w1 hr
    rw [← (Prod.mk.inj hr).2]
    exact ⟨rfl, rfl⟩
  | succ k ih =>
    intro w w2 path perm r h
    refine mkdirAllBody_frame _ w w2 path perm r ?_ h
    intro parent r1 w1 hr
    exact ih _ _ _ _ _ hr

theorem mkdirAllBody_congr (r1 r2 : GoString → Option PathError × World) (w : World)
    (path : GoString) (perm : Nat)
    (h : ∀ parent, parentOf path = some parent → r1 parent = r2 parent) :
    mkdirAllBody r1 w path perm = mkdirAllBody r2 w path perm := by
  unfold mkdirAllBody
  cases hp : parentOf path with
  | none => rfl
  | some parent =>
    simp only
    rw [h parent hp]

/-- Any fuel from `len(path)` on gives the same `MkdirAll`. -/
theorem MkdirAllAux_fuel (perm : Nat) (f1 : Nat) :
    ∀ (f2 : Nat) (w : World) (path : GoString), path.length ≤ f1 → path.length ≤ f2 →
      MkdirAllAux f1 w path perm = MkdirAllAux f2 w path perm := by
  induction f1 with
  | zero =>
    intro f2 w path h1 _
    have hnil : path = [] := List.length_eq_zero.mp (Nat.le_zero.mp h1)
    subst hnil
    have hp : ∀ parent, parentOf ([] : GoString) = some parent → False := by
      intro parent h
      have hn : parentOf ([] : GoString) = none := rfl
      rw [hn] at h
      exact Option.noConfusion h
    cases f2 with
    | zero => rfl
    | succ j =>
      unfold MkdirAllAux
      exact mkdirAllBody_congr _ _ _ _ _ (fun parent h => (hp parent h).elim)
  | succ k ih =>
    intro f2 w path h1 h2
    cases f2 with
    | zero =>
      have hnil : path = [] := List.length_eq_zero.mp (Nat.le_zero.mp h2)
      subst hnil
      have hn : parentOf ([] : GoString) = none := rfl
      unfold MkdirAllAux
      exact mkdirAllBody_congr _ _ _ _ _
        (fun parent h => Option.noConfusion (hn ▸ h : none = some parent))
    | succ j =>
      rw [MkdirAllAux, MkdirAllAux]
      apply mkdirAllBody_congr
      intro parent hp
      have hlt := parentOf_length path parent hp
      exact ih j w parent (by omega) (by omega)

theorem length_dropWhile_le (p : Byte → Bool) (l : GoString) :
    (l.dropWhile p).length ≤ l.length := by
  induction l with
  | nil => simp
  | cons c t ih =>
    rw [List.dropWhile_cons]
    split
    · exact Nat.le_succ_of_le ih
    · exact Nat.le_refl _

/-- Any fuel from the length of the unread input on gives the same `Clean`: every
round of the loop consumes at least one byte. -/
theorem cleanLoop_fuel (rooted : Bool) (f1 : Nat) :
    ∀ (f2 : Nat) (rest out : GoString) (dotdot : Nat), rest.length ≤ f1 → rest.length ≤ f2 →
      cleanLoop rooted f1 rest out dotdot = cleanLoop rooted f2 rest out dotdot := by
  induction f1 with
  | zero =>
    intro f2 rest out dotdot h1 _
    have hnil : rest = [] := List.length_eq_zero.mp (Nat.le_zero.mp h1)
    subst hnil
    cases f2 <;> rfl
  | succ k ih =>
    intro f2 rest out dotdot h1 h2
    cases rest with
    | nil => cases f2 <;> rfl
    | cons c t =>
      cases f2 with
      | zero => simp at h2
      | succ j =>
        simp only [List.length_cons, Nat.add_le_add_iff_right] at h1 h2
        have htail : t.tail.length ≤ t.length := by simp
        simp only [cleanLoop]
        split
        · exact ih j t _ _ h1 h2
        · rename_i hc
          split
          · exact ih j t _ _ h1 h2
          · split
            · split
              · exact ih j _ _ _ (by omega) (by omega)
              · split
                · exact ih j _ _ _ (by omega) (by omega)
                · exact ih j _ _ _ (by omega) (by omega)
            · have hd : ((c :: t).dropWhile (· != slash)).length ≤ t.length := by
                have hcs : (c != slash) = true := by simpa using hc
                rw [List.dropWhile_cons, if_pos hcs]
                exact length_dropWhile_le _ t
              exact ih j _ _ _ (by omega) (by omega)

/-! ## The template directory -/

theorem baseDir_of_override (w : World) (base : GoString)
    (henv : w.environ (str "DOT_GITHUB_HOME") = some base) (hne : base ≠ []) :
    baseDir w = .ok base := by
  have hlen : base.length ≠ 0 := fun h => hne (List.length_eq_zero.mp h)
  simp [baseDir, Getenv, henv, hlen]

theorem baseDir_of_no_override (w : World)
    (henv : w.environ (str "DOT_GITHUB_HOME") = none ∨
      w.environ (str "DOT_GITHUB_HOME") = some []) :
    baseDir w =
      match w.currentUser with
      | .error e => .error (.message e)
      | .ok homeDir => .ok homeDir := by
  rcases henv with h | h <;> simp [baseDir, Getenv, h]

/-- A successful `TemplateDir` returns `Join(baseDir(), ".github")`. -/
theorem TemplateDir_path (w w' : World) (d : GoString) (h : TemplateDir w = (.ok d, w')) :
    ∃ base, baseDir w = .ok base ∧ d = Join [base, str ".github"] := by
  unfold TemplateDir at h
  split at h
  · exact absurd (Prod.mk.inj h).1 (by simp)
  · rename_i base hb
    refine ⟨base, hb, ?_⟩
    simp only at h
    split at h
    · exact (Except.ok.inj (Prod.mk.inj h).1).symm
    · split at h
      · split at h
        · exact absurd (Prod.mk.inj h).1 (by simp)
        · exact (Except.ok.inj (Prod.mk.inj h).1).symm
      · exact (Except.ok.inj (Prod.mk.inj h).1).symm

/-- C7: when TemplateDir does not fail and DOT_GITHUB_HOME is set to a non-empty B,
the result is path.Join(B, ".github"), whatever the home directory and the file
system are; for B = "/tmp/X" it is "/tmp/X/.github"; when the variable is unset or
empty, the result is path.Join(home, ".github") for the current user's home. -/
theorem template_dir_base (w w' : World) (d : GoString)
    (h : TemplateDir w = (.ok d, w')) :
    (∀ base, w.environ (str "DOT_GITHUB_HOME") = some base → base ≠ [] →
        d = Join [base, str ".github"]) ∧
    (w.environ (str "DOT_GITHUB_HOME") = some (str "/tmp/X") → d = str "/tmp/X/.github") ∧
    (w.environ (str "DOT_GITHUB_HOME") = none ∨
        w.environ (str "DOT_GITHUB_HOME") = some [] →
      ∃ homeDir, w.currentUser = .ok homeDir ∧ d = Join [homeDir, str ".github"]) := by
  obtain ⟨base, hb, hd⟩ := TemplateDir_path w w' d h
  have hover : ∀ b, w.environ (str "DOT_GITHUB_HOME") = some b → b ≠ [] →
      d = Join [b, str ".github"] := by
    intro b henv hne
    rw [baseDir_of_override w b henv hne] at hb
    rw [hd, ← Except.ok.inj hb]
  refine ⟨hover, ?_, ?_⟩
  · intro henv
    rw [hover _ henv (by decide)]
    decide
  · intro henv
    rw [baseDir_of_no_override w henv] at hb
    cases hu : w.currentUser with
    | error e =>
      rw [hu] at hb
      exact absurd hb (by simp)
    | ok homeDir =>
      rw [hu] at hb
      exact ⟨homeDir, rfl, by rw [hd, ← Except.ok.inj hb]⟩

/-- With DOT_GITHUB_HOME=/tmp/X, TemplateDir returns `/tmp/X/.github`; without the
variable and with the home directory `/home/u`, it returns `/home/u/.github`. -/
theorem template_dir_base_witness :
    ((TemplateDir demoWorld).1 = .ok (str "/tmp/X/.github") ∧
      str "/tmp/X/.github" = Join [str "/tmp/X", str ".github"]) ∧
    ((TemplateDir homeWorld).1 = .ok (str "/home/u/.github") ∧
      ∃ homeDir, homeWorld.currentUser = .ok homeDir ∧
        str "/home/u/.github" = Join [homeDir, str ".github"]) :=
  ⟨⟨by decide,
    (template_dir_base demoWorld (TemplateDir demoWorld).2 (str "/tmp/X/.github")
      (Prod.ext (by decide) rfl)).1 (str "/tmp/X") (by decide) (by decide)⟩,
   ⟨by decide,
    (template_dir_base homeWorld (TemplateDir homeWorld).2 (str "/home/u/.github")
      (Prod.ext (by decide) rfl)).2.2 (Or.inl (by decide))⟩⟩

theorem baseDir_congr (w w' : World) (henv : w'.environ = w.environ)
    (huser : w'.currentUser = w.currentUser) : baseDir w' = baseDir w := by
  unfold baseDir Getenv
  rw [henv, huser]

/-- The three ways `TemplateDir` succeeds: something is at `d` already, the
existence check fails for a reason other than "does not exist", or the check
reports "does not exist" and `MkdirAll` succeeds. -/
theorem TemplateDir_ok (w w' : World) (d : GoString) (h : TemplateDir w = (.ok d, w')) :
    ((∃ fi, Stat w d = .ok fi) ∧ w' = w) ∨
    ((∃ e, Stat w d = .error e ∧ IsNotExist e = false) ∧ w' = w) ∨
    ((∃ e, Stat w d = .error e ∧ IsNotExist e = true) ∧
      MkdirAll w d (ModeDir ||| 0o644) = (none, w')) := by
  unfold TemplateDir at h
  split at h
  · exact absurd (Prod.mk.inj h).1 (by simp)
  · rename_i base hb
    simp only at h
    split at h
    · rename_i fi hs
      have hd := Except.ok.inj (Prod.mk.inj h).1
      rw [hd] at hs
      exact Or.inl ⟨⟨fi, hs⟩, (Prod.mk.inj h).2.symm⟩
    · rename_i e hs
      split at h
      · rename_i hne
        split at h
        · exact absurd (Prod.mk.inj h).1 (by simp)
        · rename_i w1 hm
          have hd := Except.ok.inj (Prod.mk.inj h).1
          rw [hd] at hs hm
          rw [(Prod.mk.inj h).2] at hm
          exact Or.inr (Or.inr ⟨⟨e, hs, hne⟩, hm⟩)
      · rename_i hne
        have hd := Except.ok.inj (Prod.mk.inj h).1
        rw [hd] at hs
        exact Or.inr (Or.inl ⟨⟨e, hs, by simpa using hne⟩, (Prod.mk.inj h).2.symm⟩)

/-- The counterexample to C8: with a regular file at `/tmp/X/.github`, TemplateDir
returns that path and it is still a file; with a regular file at `/tmp/X`, the
existence check fails with ENOTDIR, TemplateDir returns `/tmp/X/.github` and there
is still nothing there. -/
theorem template_dir_not_created_counterexample :
    ((TemplateDir fileWorld).1 = .ok (str "/tmp/X/.github") ∧
      Stat (TemplateDir fileWorld).2 (str "/tmp/X/.github") = .ok ⟨false⟩) ∧
    ((TemplateDir blockedWorld).1 = .ok (str "/tmp/X/.github") ∧
      Stat (TemplateDir blockedWorld).2 (str "/tmp/X/.github")
        = .error ⟨str "stat", str "/tmp/X/.github", .ENOTDIR⟩) :=
  ⟨⟨by decide, by decide⟩, ⟨by decide, by decide⟩⟩

/-- C8, amended: when TemplateDir returns a path d without failing, and before the
call d was a directory already or the existence check reported "does not exist", d
is a directory in the resulting state (created in the second case). -/
theorem template_dir_exists (w w' : World) (d : GoString)
    (h : TemplateDir w = (.ok d, w'))
    (hbefore : Stat w d = .ok ⟨true⟩ ∨ ∃ e, Stat w d = .error e ∧ e.Err = .ENOENT) :
    Stat w' d = .ok ⟨true⟩ := by
  rcases TemplateDir_ok w w' d h with ⟨⟨fi, hs⟩, hw⟩ | ⟨⟨e, hs, hne⟩, hw⟩ | ⟨_, hm⟩
  · rcases hbefore with h1 | ⟨e, h1, _⟩
    · rw [hw]; exact h1
    · rw [hs] at h1; exact absurd h1 (by simp)
  · rcases hbefore with h1 | ⟨e1, h1, he1⟩
    · rw [hw]; exact h1
    · rw [hs] at h1
      have : e = e1 := Except.error.inj h1
      subst this
      simp [IsNotExist, he1] at hne
  · exact MkdirAllAux_dir _ w w' d _ hm

/-- On the sample machine `/tmp/X/.github` is missing before the call and a
directory after it. -/
theorem template_dir_exists_witness :
    Stat demoWorld (str "/tmp/X/.github")
        = .error ⟨str "stat", str "/tmp/X/.github", .ENOENT⟩ ∧
      Stat (TemplateDir demoWorld).2 (str "/tmp/X/.github") = .ok ⟨true⟩ :=
  ⟨by decide,
    template_dir_exists demoWorld (TemplateDir demoWorld).2 (str "/tmp/X/.github")
      (Prod.ext (by decide) rfl)
      (Or.inr ⟨⟨str "stat", str "/tmp/X/.github", .ENOENT⟩, by decide, rfl⟩)⟩

/-- C9: when a first call of TemplateDir succeeds with d, a second call in the
resulting state succeeds as well, returns the same d and leaves that state
unchanged. -/
theorem template_dir_idempotent (w w' : World) (d : GoString)
    (h : TemplateDir w = (.ok d, w')) :
    TemplateDir w' = (.ok d, w') := by
  rcases TemplateDir_ok w w' d h with ⟨_, hw⟩ | ⟨_, hw⟩ | ⟨_, hm⟩
  · subst hw; exact h
  · subst hw; exact h
  · obtain ⟨base, hb, hd⟩ := TemplateDir_path w w' d h
    have hf := MkdirAllAux_frame _ w w' d _ _ hm
    have hb' : baseDir w' = .ok base := by rw [baseDir_congr w w' hf.1 hf.2, hb]
    have hs : Stat w' d = .ok ⟨true⟩ := MkdirAllAux_dir _ w w' d _ hm
    unfold TemplateDir
    rw [hb']
    simp only
    rw [← hd, hs]

/-- On the sample machine the first call creates `/tmp/X/.github`, and the second
returns the same path without touching anything. -/
theorem template_dir_idempotent_witness :
    (TemplateDir demoWorld).1 = .ok (str "/tmp/X/.github") ∧
      TemplateDir (TemplateDir demoWorld).2
        = (.ok (str "/tmp/X/.github"), (TemplateDir demoWorld).2) :=
  ⟨by decide,
    template_dir_idempotent demoWorld (TemplateDir demoWorld).2 (str "/tmp/X/.github")
      (Prod.ext (by decide) rfl)⟩

end DotGithub
